import Mathlib

/-!
Verification of the s3-image-importer pipeline

A shallow embedding of `src/s3_image_importer.py`.  Strings are modelled as
`List Char` (`Str`), byte payloads as `List Nat` (`Bytes`).  External
collaborators (the HTTP transport `requests.get`, the image sniffer
`PIL.Image.open`, and the destination store `s3_client.put_object`) are
modelled as an abstract `World` of oracles; the worker function
`process_image_download_upload` is translated statement by statement from the
source, returning both its Python outcome (an `Except` mirroring the raised
exception class, or the returned index) and the trace of external effects it
performed (network fetches and store puts).  The main dispatch loop is
modelled by `taskSource` (the two pandas filters of `main`),
`runNewLedgerEntries` (the `as_completed` loop that appends to the progress
file exactly the indices returned by successful workers) and
`mainLedgerAfter` (the append-only progress file after the run).  Since every
claim about the loop is order-insensitive (set membership, disjointness),
the completion order of the thread pool is modelled as dispatch order.
-/

set_option autoImplicit false

abbrev Str : Type := List Char

abbrev Bytes : Type := List Nat

/-- ASCII whitespace recognised by Python `str.strip` (the progress file is
written by the program itself, so only ASCII forms occur). -/
def pyIsSpace (c : Char) : Bool :=
  c = ' ' || c = '\t' || c = '\n' || c = '\r' || c = '\x0b' || c = '\x0c'

/-- Python `str.strip()`: remove leading and trailing whitespace. -/
def pyStrip (l : Str) : Str :=
  ((l.dropWhile pyIsSpace).reverse.dropWhile pyIsSpace).reverse

/-- Python `str.lower()` on the ASCII format names produced by Pillow. -/
def pyLower (s : Str) : Str := s.map Char.toLower

/-- The decimal digit characters, used to model Python `f-string` formatting
of an integer index. -/
def digitChar (d : Nat) : Char :=
  match d with
  | 0 => '0' | 1 => '1' | 2 => '2' | 3 => '3' | 4 => '4'
  | 5 => '5' | 6 => '6' | 7 => '7' | 8 => '8' | 9 => '9'
  | _ => '*'

/-- Python `f"{index}"` for a natural row index: its decimal digits. -/
def natToStr (n : Nat) : Str :=
  if n = 0 then ['0'] else ((Nat.digits 10 n).map digitChar).reverse

/-! ## `urllib.parse.urlparse(...).path`

CPython `urlsplit` removes, in order: the scheme (an initial alphabetic
character followed by letters, digits, `+`, `-` or `.` up to a colon), the
network location (when the remainder starts with a double slash, up to the
next `/`, `?` or `#`), the fragment (everything from the first `#`) and the
query (everything from the first `?`).  `urlparse` additionally splits the
parameters: the part of the last path segment following a semicolon. -/

def isSchemeChar (c : Char) : Bool :=
  c.isAlpha || c.isDigit || c = '+' || c = '-' || c = '.'

/-- Scan for the colon terminating a URL scheme: `some rest` when the scanned
characters are all scheme characters up to a colon, `none` otherwise. -/
def schemeTail : Str → Option Str
  | [] => none
  | c :: rest =>
    if c = ':' then some rest
    else if isSchemeChar c then schemeTail rest
    else none

/-- Remove a leading `scheme:` when present (the first character must be a
letter, as in CPython). -/
def dropScheme (u : Str) : Str :=
  match u with
  | [] => []
  | c :: rest =>
    if c.isAlpha then
      match schemeTail rest with
      | some r => r
      | none => u
    else u

def netlocDelim (c : Char) : Bool := c = '/' || c = '?' || c = '#'

/-- Remove a leading `//netloc` when present (CPython tests `url[:2] == '//'`):
the netloc extends to the next `/`, `?` or `#`, which is kept in the
remainder. -/
def dropNetloc (u : Str) : Str :=
  match u with
  | c1 :: c2 :: rest =>
    if c1 = '/' ∧ c2 = '/' then rest.dropWhile (fun c => !netlocDelim c) else u
  | u => u

/-- Everything strictly before the first occurrence of `stop`. -/
def takeUntilChar (stop : Char) (l : Str) : Str :=
  l.takeWhile (fun c => c != stop)

/-- The `path` component of `urllib.parse.urlsplit`. -/
def urlsplitPath (u : Str) : Str :=
  takeUntilChar '?' (takeUntilChar '#' (dropNetloc (dropScheme u)))

/-- Python posixpath basename: the last slash-separated segment. -/
def basenameStr (p : Str) : Str :=
  (p.reverse.takeWhile (fun c => c != '/')).reverse

/-- Everything up to and including the last `/` (empty when there is none). -/
def dirSlashStr (p : Str) : Str :=
  (p.reverse.dropWhile (fun c => c != '/')).reverse

/-- CPython `_splitparams`: cut the last path segment at its first `;`. -/
def splitParamsPath (p : Str) : Str :=
  dirSlashStr p ++ takeUntilChar ';' (basenameStr p)

/-- The `path` attribute of `urllib.parse.urlparse` (source line 79). -/
def urlparsePath (u : Str) : Str :=
  splitParamsPath (urlsplitPath u)

/-- Python os.path.splitext, first component, for a basename with no slash: strip a
final extension at the last dot, unless every character before that dot is
itself a dot (so `.bashrc`-style names keep their dot). -/
def splitextBase (b : Str) : Str :=
  let r := b.reverse
  let t := r.takeWhile (fun c => c != '.')
  if t.length = r.length then b
  else
    let stem := (r.drop (t.length + 1)).reverse
    if stem.all (fun c => c == '.') then b else stem

/-! ## Python `int(...)` on a stripped line

`int` accepts an optional sign followed by a nonempty run of decimal digits
in which single underscores may separate digits (CPython 3.6+); anything
else raises `ValueError`.  (Non-ASCII digit forms are not modelled: the
progress file is written by the program itself as ASCII decimal.) -/

def pyIntDigitsTail : Str → Bool
  | [] => true
  | ['_'] => false
  | '_' :: c :: rest => c.isDigit && pyIntDigitsTail rest
  | c :: rest => c.isDigit && pyIntDigitsTail rest

def headDigits : Str → Bool
  | [] => false
  | c :: rest => c.isDigit && pyIntDigitsTail rest

def pyIntValid (l : Str) : Bool :=
  match l with
  | '+' :: rest => headDigits rest
  | '-' :: rest => headDigits rest
  | l => headDigits l

def pyIntDigitsVal (l : Str) : Nat :=
  l.foldl (fun acc c => if c = '_' then acc else acc * 10 + (c.toNat - 48)) 0

/-- Python `int(line)` on an already stripped line: `none` models a raised
`ValueError`. -/
def pyInt? (l : Str) : Option Int :=
  if pyIntValid l then
    match l with
    | '-' :: rest => some (-(pyIntDigitsVal rest : Int))
    | '+' :: rest => some ((pyIntDigitsVal rest : Int))
    | _ => some ((pyIntDigitsVal l : Int))
  else none

/-! ## Configuration constants (source lines 19-27) -/

def DEST_S3_BUCKET : Str := "your-destination-bucket-name".toList

def DEST_S3_FOLDER : Str := "your-folder-name".toList

def MAX_WORKERS : Nat := 30

/-! ## `load_processed_indices` (source lines 44-49)

The progress file is `none` when it does not exist, otherwise the list of
its lines.  The Python set comprehension
`{int(line.strip()) for line in f if line.strip()}` skips blank lines,
parses every remaining line with `int` (raising `ValueError`, modelled as
`Except.error`, on any unparseable line) and collapses duplicates into set
membership (`Finset Int`). -/

def load_processed_indices (file : Option (List Str)) : Except Unit (Finset Int) :=
  match file with
  | none => .ok ∅
  | some lines =>
    let nonblank := lines.filter (fun l => !(pyStrip l).isEmpty)
    if nonblank.all (fun l => (pyInt? (pyStrip l)).isSome) then
      .ok (nonblank.filterMap (fun l => pyInt? (pyStrip l))).toFinset
    else .error ()

/-! ## The worker `process_image_download_upload` (source lines 56-108) -/

structure HttpResponse where
  status : Nat
  contentTypeHeader : Option Str
  content : Bytes
deriving DecidableEq

/-- Result of `requests.get(url, timeout=30)`: a response, or a raised
`requests.exceptions.RequestException` (timeout, connection failure, ...). -/
inductive FetchResult where
  | success (resp : HttpResponse)
  | requestExc
deriving DecidableEq

/-- The external collaborators seen by one worker: the HTTP transport, the
Pillow format sniffer (`none` models both an `open` that raises and a
successfully opened image whose `format` attribute is `None`), and the
destination store (`false` models a raised `ClientError`). -/
structure World where
  fetch : Str → Nat → FetchResult
  sniff : Bytes → Option Str
  putOk : Str → Str → Bytes → Str → Bool

/-- The exception class escaping the worker, as discriminated by the handlers
on source lines 94-108. -/
inductive TaskError where
  | networkError
  | invalidContent
  | storageError
deriving DecidableEq

/-- One observable call to an external collaborator. -/
inductive Effect where
  | fetchE (url : Str) (timeout : Nat)
  | putE (bucket key : Str) (body : Bytes) (contentType : Str)
deriving DecidableEq

/-- The response raise_for_status method raises HTTPError exactly for status codes
in `[400, 600)`. -/
def raise_for_status_fails (status : Nat) : Bool :=
  400 ≤ status && status < 600

/-- Source lines 76-77: the extension table maps jpeg to jpg and passes every other format through unchanged. -/
def extension_map (fmt : Str) : Str :=
  if fmt = "jpeg".toList then "jpg".toList else fmt

/-- Source lines 79-81: the base filename of the URL path, with its extension
stripped, replaced by the placeholder when empty. -/
def derive_base (sourceUrl : Str) : Str :=
  let b := splitextBase (basenameStr (urlparsePath sourceUrl))
  if b = [] then "image".toList else b

/-- Source lines 83-84: the destination key
`{DEST_S3_FOLDER}/{original_index}_{base_filename}.{extension}`. -/
def derive_key (originalIndex : Nat) (sourceUrl : Str) (extension : Str) : Str :=
  DEST_S3_FOLDER ++ "/".toList ++ natToStr originalIndex ++ "_".toList
    ++ derive_base sourceUrl ++ ".".toList ++ extension

/-- The worker pipeline of source lines 56-108, returning the Python outcome
(the returned index, or the class of the re-raised exception) together with
the trace of external calls it made. -/
def process_image_download_upload (w : World) (sourceUrl : Str)
    (originalIndex : Nat) : Except TaskError Nat × List Effect :=
  match w.fetch sourceUrl 30 with
  | .requestExc => (.error .networkError, [.fetchE sourceUrl 30])
  | .success resp =>
    if raise_for_status_fails resp.status then
      (.error .networkError, [.fetchE sourceUrl 30])
    else
      let imageData := resp.content
      match w.sniff imageData with
      | none => (.error .invalidContent, [.fetchE sourceUrl 30])
      | some fmt =>
        let image_format := pyLower fmt
        let extension := extension_map image_format
        let dest_key := derive_key originalIndex sourceUrl extension
        let contentType := resp.contentTypeHeader.getD ("image/".toList ++ extension)
        if w.putOk DEST_S3_BUCKET dest_key imageData contentType then
          (.ok originalIndex,
           [.fetchE sourceUrl 30, .putE DEST_S3_BUCKET dest_key imageData contentType])
        else
          (.error .storageError,
           [.fetchE sourceUrl 30, .putE DEST_S3_BUCKET dest_key imageData contentType])

/-! ## The main dispatch loop (source lines 110-166)

A DataFrame row is `(index, cell)` where the cell is `none` for a missing
(NaN) URL value.  Source line 137 keeps rows whose index is not in the
resume set; line 141 keeps rows whose URL cell is not NA (`notna`). -/

def taskSource (df : List (Nat × Option Str)) (processed : List Int) :
    List (Nat × Str) :=
  (((df.filter (fun r => decide ((r.1 : Int) ∉ processed))).filter
      (fun r => r.2.isSome)).map (fun r => (r.1, r.2.getD [])))

/-- The indices appended to the progress file by the `as_completed` loop
(source lines 158-164): exactly the values returned by workers that did not
raise. -/
def runNewLedgerEntries (w : World) (tasks : List (Nat × Str)) : List Nat :=
  tasks.filterMap (fun t =>
    match (process_image_download_upload w t.2 t.1).1 with
    | .ok i => some i
    | .error _ => none)

/-- The append-only progress file after a run that started from lines
`ledger0`. -/
def mainLedgerAfter (w : World) (df : List (Nat × Option Str))
    (ledger0 : List Int) : List Int :=
  ledger0 ++ (runNewLedgerEntries w (taskSource df ledger0)).map (fun n => (n : Int))

/-! ## Helper lemmas: URL path extraction -/

theorem takeWhile_append_stop {p : Char → Bool} {d : Char} (hd : p d = false)
    (l t : Str) : List.takeWhile p (l ++ d :: t) = List.takeWhile p l := by
  induction l with
  | nil => simp [List.takeWhile_cons, hd]
  | cons c l ih =>
    by_cases hc : p c <;> simp [List.takeWhile_cons, hc, ih]

theorem schemeTail_append_some {l r : Str} (s : Str) (h : schemeTail l = some r) :
    schemeTail (l ++ s) = some (r ++ s) := by
  induction l generalizing r with
  | nil => simp [schemeTail] at h
  | cons c rest ih =>
    by_cases hc : c = ':'
    · simp [schemeTail, hc] at h ⊢
      rw [h]
    · by_cases hs : isSchemeChar c
      · simp [schemeTail, hc, hs] at h ⊢
        exact ih h
      · simp [schemeTail, hc, hs] at h

theorem schemeTail_append_none {l : Str} (d : Char) (t : Str)
    (h : schemeTail l = none) (hd : d ≠ ':') (hds : isSchemeChar d = false) :
    schemeTail (l ++ d :: t) = none := by
  induction l with
  | nil => simp [schemeTail, hd, hds]
  | cons c rest ih =>
    by_cases hc : c = ':'
    · simp [schemeTail, hc] at h
    · by_cases hs : isSchemeChar c
      · simp [schemeTail, hc, hs] at h ⊢
        exact ih h
      · simp [schemeTail, hc, hs]

theorem dropScheme_append (base : Str) (d : Char) (t : Str)
    (hd : d ≠ ':') (hds : isSchemeChar d = false) (hda : d.isAlpha = false) :
    dropScheme (base ++ d :: t) = dropScheme base ++ d :: t := by
  cases base with
  | nil => simp [dropScheme, hda]
  | cons c rest =>
    by_cases hc : c.isAlpha
    · cases hst : schemeTail rest with
      | some r =>
        simp [dropScheme, hc, hst, schemeTail_append_some (d :: t) hst]
      | none =>
        simp [dropScheme, hc, hst, schemeTail_append_none d t hst hd hds]
    · simp [dropScheme, hc]

theorem dropNetloc_append (u : Str) (d : Char) (t : Str)
    (hnd : netlocDelim d = true) (hds : d ≠ '/') :
    dropNetloc (u ++ d :: t) = dropNetloc u ++ d :: t := by
  rcases u with _ | ⟨c1, _ | ⟨c2, rest⟩⟩
  · cases t with
    | nil => rfl
    | cons t1 ts =>
      have hcond : ¬(d = '/' ∧ t1 = '/') := fun h => hds h.1
      simp [dropNetloc, hcond]
  · have hcond : ¬(c1 = '/' ∧ d = '/') := fun h => hds h.2
    simp [dropNetloc, hcond]
  · show dropNetloc (c1 :: c2 :: (rest ++ d :: t)) = dropNetloc (c1 :: c2 :: rest) ++ d :: t
    by_cases hslash : c1 = '/' ∧ c2 = '/'
    · simp only [dropNetloc, if_pos hslash, List.dropWhile_append]
      split
      · next hemp =>
        rw [List.isEmpty_iff] at hemp
        rw [hemp]
        simp [List.dropWhile_cons, hnd]
      · rfl
    · simp [dropNetloc, hslash]

theorem pathCore_eq (l : Str) :
    takeUntilChar '?' (takeUntilChar '#' l)
      = l.takeWhile (fun c => (c != '#') && (c != '?')) := by
  induction l with
  | nil => rfl
  | cons c l ih =>
    by_cases h1 : c = '#'
    · subst h1
      simp [takeUntilChar, List.takeWhile_cons]
    · by_cases h2 : c = '?'
      · subst h2
        simp [takeUntilChar, List.takeWhile_cons]
      · simp only [takeUntilChar, List.takeWhile_cons] at ih ⊢
        simp [h1, h2, ih]

/-- A suffix that a URL may carry after its path: empty, or a query
(starting with a question mark), or a fragment (starting with a hash). -/
def qfSuffix (s : Str) : Prop :=
  s = [] ∨ (∃ t, s = '?' :: t) ∨ (∃ t, s = '#' :: t)

theorem urlsplitPath_append_qf (base : Str) {s : Str} (hs : qfSuffix s) :
    urlsplitPath (base ++ s) = urlsplitPath base := by
  rcases hs with rfl | ⟨t, rfl⟩ | ⟨t, rfl⟩
  · simp
  · unfold urlsplitPath
    rw [dropScheme_append base '?' t (by decide) (by decide) (by decide)]
    rw [dropNetloc_append _ '?' t (by decide) (by decide)]
    rw [pathCore_eq, pathCore_eq]
    exact takeWhile_append_stop (by decide) _ _
  · unfold urlsplitPath
    rw [dropScheme_append base '#' t (by decide) (by decide) (by decide)]
    rw [dropNetloc_append _ '#' t (by decide) (by decide)]
    rw [pathCore_eq, pathCore_eq]
    exact takeWhile_append_stop (by decide) _ _

theorem urlparsePath_append_qf (base : Str) {s : Str} (hs : qfSuffix s) :
    urlparsePath (base ++ s) = urlparsePath base := by
  unfold urlparsePath
  rw [urlsplitPath_append_qf base hs]

theorem derive_key_append_qf (i : Nat) (ext base : Str) {s : Str}
    (hs : qfSuffix s) :
    derive_key i (base ++ s) ext = derive_key i base ext := by
  unfold derive_key derive_base
  rw [urlparsePath_append_qf base hs]

/-! ## Helper lemmas: decimal rendering of the row index -/

theorem digitChar_inj {d1 d2 : Nat} (h1 : d1 < 10) (h2 : d2 < 10)
    (h : digitChar d1 = digitChar d2) : d1 = d2 := by
  interval_cases d1 <;> interval_cases d2 <;> simp_all [digitChar]

theorem digitChar_ne_underscore {d : Nat} (h : d < 10) : digitChar d ≠ '_' := by
  interval_cases d <;> decide

theorem map_digitChar_inj :
    ∀ (l1 l2 : List Nat), (∀ d ∈ l1, d < 10) → (∀ d ∈ l2, d < 10) →
      l1.map digitChar = l2.map digitChar → l1 = l2 := by
  intro l1
  induction l1 with
  | nil =>
    intro l2 _ _ h
    cases l2 with
    | nil => rfl
    | cons c cs => simp at h
  | cons c cs ih =>
    intro l2 hb1 hb2 h
    cases l2 with
    | nil => simp at h
    | cons e es =>
      simp only [List.map_cons, List.cons.injEq] at h
      have hce : c = e :=
        digitChar_inj (hb1 c (by simp)) (hb2 e (by simp)) h.1
      have := ih es (fun d hd => hb1 d (by simp [hd]))
        (fun d hd => hb2 d (by simp [hd])) h.2
      rw [hce, this]

theorem natToStr_inj {a b : Nat} (h : natToStr a = natToStr b) : a = b := by
  unfold natToStr at h
  by_cases ha : a = 0 <;> by_cases hb : b = 0
  · rw [ha, hb]
  · exfalso
    rw [if_pos ha, if_neg hb] at h
    have hmap : (Nat.digits 10 b).map digitChar = ['0'] := by
      have hrev := h.symm
      rw [List.reverse_eq_iff] at hrev
      simpa using hrev
    have hdig : Nat.digits 10 b = [0] := by
      apply map_digitChar_inj (Nat.digits 10 b) [0]
        (fun d hd => Nat.digits_lt_base (by norm_num) hd) (by simp)
      simpa [digitChar] using hmap
    have : b = 0 := by
      have := Nat.ofDigits_digits 10 b
      rw [hdig] at this
      simpa [Nat.ofDigits] using this.symm
    exact hb this
  · exfalso
    rw [if_neg ha, if_pos hb] at h
    have hmap : (Nat.digits 10 a).map digitChar = ['0'] := by
      rw [List.reverse_eq_iff] at h
      simpa using h
    have hdig : Nat.digits 10 a = [0] := by
      apply map_digitChar_inj (Nat.digits 10 a) [0]
        (fun d hd => Nat.digits_lt_base (by norm_num) hd) (by simp)
      simpa [digitChar] using hmap
    have : a = 0 := by
      have := Nat.ofDigits_digits 10 a
      rw [hdig] at this
      simpa [Nat.ofDigits] using this.symm
    exact ha this
  · rw [if_neg ha, if_neg hb] at h
    have hmap := List.reverse_injective h
    have hdig := map_digitChar_inj (Nat.digits 10 a) (Nat.digits 10 b)
      (fun d hd => Nat.digits_lt_base (by norm_num) hd)
      (fun d hd => Nat.digits_lt_base (by norm_num) hd) hmap
    have h1 := Nat.ofDigits_digits 10 a
    have h2 := Nat.ofDigits_digits 10 b
    rw [hdig] at h1
    rw [h2] at h1
    exact h1.symm

theorem underscore_not_mem_natToStr (n : Nat) : '_' ∉ natToStr n := by
  unfold natToStr
  split
  · decide
  · intro hmem
    rw [List.mem_reverse, List.mem_map] at hmem
    obtain ⟨d, hd, he⟩ := hmem
    exact digitChar_ne_underscore (Nat.digits_lt_base (by norm_num) hd) he

theorem underscore_split :
    ∀ (a b r r' : Str), '_' ∉ a → '_' ∉ b →
      a ++ '_' :: r = b ++ '_' :: r' → a = b := by
  intro a
  induction a with
  | nil =>
    intro b r r' _ hb h
    cases b with
    | nil => rfl
    | cons c bs =>
      exfalso
      simp only [List.nil_append, List.cons_append, List.cons.injEq] at h
      exact hb (h.1 ▸ List.mem_cons_self c bs)
  | cons c as ih =>
    intro b r r' ha hb h
    cases b with
    | nil =>
      exfalso
      simp only [List.nil_append, List.cons_append, List.cons.injEq] at h
      exact ha (h.1.symm ▸ List.mem_cons_self c as)
    | cons e bs =>
      simp only [List.cons_append, List.cons.injEq] at h
      have htail := ih bs r r' (fun hm => ha (List.mem_cons_of_mem c hm))
        (fun hm => hb (List.mem_cons_of_mem e hm)) h.2
      rw [h.1, htail]

/-! ## Helper lemmas: the worker pipeline -/

theorem process_fetch_exc {w : World} {url : Str} {i : Nat}
    (h : w.fetch url 30 = .requestExc) :
    process_image_download_upload w url i
      = (.error .networkError, [.fetchE url 30]) := by
  unfold process_image_download_upload
  rw [h]

theorem process_http_error {w : World} {url : Str} {i : Nat} {resp : HttpResponse}
    (h : w.fetch url 30 = .success resp)
    (hs : raise_for_status_fails resp.status = true) :
    process_image_download_upload w url i
      = (.error .networkError, [.fetchE url 30]) := by
  unfold process_image_download_upload
  rw [h]
  simp [hs]

theorem process_bad_image {w : World} {url : Str} {i : Nat} {resp : HttpResponse}
    (h : w.fetch url 30 = .success resp)
    (hs : raise_for_status_fails resp.status = false)
    (hsn : w.sniff resp.content = none) :
    process_image_download_upload w url i
      = (.error .invalidContent, [.fetchE url 30]) := by
  unfold process_image_download_upload
  rw [h]
  simp [hs, hsn]

theorem process_sniffed {w : World} {url : Str} {i : Nat} {resp : HttpResponse}
    {fmt : Str} (h : w.fetch url 30 = .success resp)
    (hs : raise_for_status_fails resp.status = false)
    (hsn : w.sniff resp.content = some fmt) :
    process_image_download_upload w url i
      = (if w.putOk DEST_S3_BUCKET (derive_key i url (extension_map (pyLower fmt)))
            resp.content
            (resp.contentTypeHeader.getD
              ("image/".toList ++ extension_map (pyLower fmt)))
         then (.ok i,
               [.fetchE url 30,
                .putE DEST_S3_BUCKET (derive_key i url (extension_map (pyLower fmt)))
                  resp.content
                  (resp.contentTypeHeader.getD
                    ("image/".toList ++ extension_map (pyLower fmt)))])
         else (.error .storageError,
               [.fetchE url 30,
                .putE DEST_S3_BUCKET (derive_key i url (extension_map (pyLower fmt)))
                  resp.content
                  (resp.contentTypeHeader.getD
                    ("image/".toList ++ extension_map (pyLower fmt)))])) := by
  unfold process_image_download_upload
  rw [h]
  simp [hs, hsn]

theorem process_ok_index (w : World) (url : Str) (i j : Nat)
    (h : (process_image_download_upload w url i).1 = .ok j) : j = i := by
  unfold process_image_download_upload at h
  cases hf : w.fetch url 30 <;> rw [hf] at h <;> simp at h
  case success resp =>
    split at h
    · simp at h
    · cases hsn : w.sniff resp.content <;> rw [hsn] at h <;> simp at h
      case some fmt =>
        split at h <;> simp_all

/-! ## Helper lemmas: the task source and the ledger loop -/

theorem mem_taskSource {df : List (Nat × Option Str)} {L : List Int}
    {i : Nat} {u : Str} :
    (i, u) ∈ taskSource df L ↔ ((i, some u) ∈ df ∧ (i : Int) ∉ L) := by
  unfold taskSource
  simp only [List.mem_map, List.mem_filter]
  constructor
  · rintro ⟨⟨j, ou⟩, ⟨⟨hmem, hni⟩, hsome⟩, heq⟩
    rw [Option.isSome_iff_exists] at hsome
    obtain ⟨v, rfl⟩ := hsome
    simp only [Option.getD_some, Prod.mk.injEq] at heq
    obtain ⟨rfl, rfl⟩ := heq
    refine ⟨hmem, ?_⟩
    simpa using hni
  · rintro ⟨hmem, hni⟩
    exact ⟨(i, some u), ⟨⟨hmem, by simpa using hni⟩, rfl⟩, rfl⟩

theorem taskSource_sublist (df : List (Nat × Option Str)) (L : List Int) :
    (taskSource df L).Sublist (df.map (fun r => (r.1, r.2.getD []))) := by
  unfold taskSource
  exact ((List.filter_sublist _).trans (List.filter_sublist _)).map _

theorem taskSource_fst_nodup (df : List (Nat × Option Str)) (L : List Int)
    (h : (df.map Prod.fst).Nodup) :
    ((taskSource df L).map Prod.fst).Nodup := by
  apply List.Nodup.sublist _ h
  have h1 := (taskSource_sublist df L).map (Prod.fst)
  rw [List.map_map] at h1
  simpa using h1

theorem nodup_fst_mem_eq {α : Type} (l : List (Nat × α))
    (h : (l.map Prod.fst).Nodup) (a b : Nat × α)
    (ha : a ∈ l) (hb : b ∈ l) (hfst : a.1 = b.1) : a = b := by
  induction l with
  | nil => cases ha
  | cons x xs ih =>
    simp only [List.map_cons, List.nodup_cons] at h
    rcases List.mem_cons.mp ha with rfl | ha'
    · rcases List.mem_cons.mp hb with rfl | hb'
      · rfl
      · exact absurd (hfst ▸ List.mem_map_of_mem Prod.fst hb') h.1
    · rcases List.mem_cons.mp hb with rfl | hb'
      · exact absurd (hfst ▸ List.mem_map_of_mem Prod.fst ha') h.1
      · exact ih h.2 ha' hb'

theorem mem_runNewLedgerEntries {w : World} {tasks : List (Nat × Str)} {i : Nat} :
    i ∈ runNewLedgerEntries w tasks ↔
      ∃ t ∈ tasks, (process_image_download_upload w t.2 t.1).1 = .ok i := by
  unfold runNewLedgerEntries
  rw [List.mem_filterMap]
  constructor
  · rintro ⟨t, ht, hp⟩
    refine ⟨t, ht, ?_⟩
    cases hr : (process_image_download_upload w t.2 t.1).1 with
    | ok v =>
      rw [hr] at hp
      simp at hp
      rw [hp]
    | error e =>
      rw [hr] at hp
      simp at hp
  · rintro ⟨t, ht, hp⟩
    refine ⟨t, ht, ?_⟩
    rw [hp]

/-! ## Helper lemmas: key derivation -/

theorem basenameStr_trailing_slash (p : Str) :
    basenameStr (p ++ ['/']) = [] := by
  unfold basenameStr
  rw [List.reverse_append]
  simp [List.takeWhile_cons]

theorem derive_base_trailing_slash {url : Str} (h : ∃ p, urlparsePath url = p ++ ['/']) :
    derive_base url = "image".toList := by
  obtain ⟨p, hp⟩ := h
  unfold derive_base
  rw [hp, basenameStr_trailing_slash]
  rfl

/-- Modelled from the spec (section 4.4, Key Deriver), for comparison with
the derive_key of the code: extract the base filename from the URL path
component, strip any existing extension, substitute the placeholder when
empty, and produce `"{folder}/{identifier}_{basename}.{extension}"`. -/
def derive_key_specModel (identifier : Nat) (sourceUrl : Str) (extension : Str) : Str :=
  let basename := splitextBase (basenameStr (urlparsePath sourceUrl))
  let basename := if basename = [] then "image".toList else basename
  DEST_S3_FOLDER ++ "/".toList ++ natToStr identifier ++ "_".toList
    ++ basename ++ ".".toList ++ extension

theorem derive_key_index_inj (i j : Nat) (url ext : Str) (hij : i ≠ j)
    (h : derive_key i url ext = derive_key j url ext) : False := by
  unfold derive_key at h
  have e1 : ("/".toList : Str) = ['/'] := rfl
  have e2 : ("_".toList : Str) = ['_'] := rfl
  rw [e1, e2] at h
  simp only [List.append_assoc, List.singleton_append] at h
  have h2 := List.append_cancel_left h
  have h2t := (List.cons.inj h2).2
  have h3 := underscore_split (natToStr i) (natToStr j) _ _
    (underscore_not_mem_natToStr i) (underscore_not_mem_natToStr j) h2t
  exact hij (natToStr_inj h3)

/-! ## Concrete fixtures for witnesses and counterexamples -/

def demoUrl : Str := "http://h/a.png".toList

/-- A world in which every stage succeeds: HTTP 200 without a Content-Type
header, a payload sniffed as PNG, and an accepting destination store. -/
def wOk : World :=
  { fetch := fun _ _ => .success ⟨200, none, [1, 2]⟩
    sniff := fun _ => some "PNG".toList
    putOk := fun _ _ _ _ => true }

/-- A world whose responses declare `text/html` in the Content-Type header
while the payload itself sniffs as PNG. -/
def wHdr : World :=
  { fetch := fun _ _ => .success ⟨200, some "text/html".toList, [7]⟩
    sniff := fun _ => some "PNG".toList
    putOk := fun _ _ _ _ => true }

/-- A world whose responses carry HTTP status 404. -/
def w404 : World :=
  { fetch := fun _ _ => .success ⟨404, none, []⟩
    sniff := fun _ => none
    putOk := fun _ _ _ _ => true }

/-- A world that returns HTTP 200 with a payload Pillow cannot decode. -/
def wBadImage : World :=
  { fetch := fun _ _ => .success ⟨200, none, [0]⟩
    sniff := fun _ => none
    putOk := fun _ _ _ _ => true }

/-! ## The claims -/

/-- C1: for every dispatched task, its index is appended to the Ledger
(progress file) if and only if the worker pipeline for that task returned
the index after a successful `put_object`; a task whose pipeline raises at
any stage is never recorded.  (The row indices of a pandas `read_csv`
DataFrame are a nodup range, hence the nodup hypothesis.) -/
theorem C1_ledger_iff_success (w : World) (df : List (Nat × Option Str))
    (L : List Int) (i : Nat) (u : Str)
    (hnd : (df.map Prod.fst).Nodup) (hmem : (i, u) ∈ taskSource df L) :
    i ∈ runNewLedgerEntries w (taskSource df L) ↔
      (process_image_download_upload w u i).1 = .ok i := by
  rw [mem_runNewLedgerEntries]
  constructor
  · rintro ⟨t, ht, hok⟩
    have hti : i = t.1 := process_ok_index w t.2 t.1 i hok
    have hteq : t = (i, u) :=
      nodup_fst_mem_eq _ (taskSource_fst_nodup df L hnd) t (i, u) ht hmem
        (by rw [← hti])
    rw [hteq] at hok
    exact hok
  · intro hok
    exact ⟨(i, u), hmem, hok⟩

theorem C1_witness :
    0 ∈ runNewLedgerEntries wOk (taskSource [(0, some demoUrl)] []) ↔
      (process_image_download_upload wOk demoUrl 0).1 = .ok 0 :=
  C1_ledger_iff_success wOk [(0, some demoUrl)] [] 0 demoUrl
    (by decide) (by decide)

/-- C2: every index newly appended to the Ledger during a run was absent
from the starting Ledger state L (rows with an index in L are filtered out
before dispatch), and the final Ledger file is a superset of L (it is
opened in append mode only). -/
theorem C2_new_entries_disjoint (w : World) (df : List (Nat × Option Str))
    (L : List Int) :
    (∀ i ∈ runNewLedgerEntries w (taskSource df L), ((i : Int) ∉ L))
    ∧ (∀ x ∈ L, x ∈ mainLedgerAfter w df L) := by
  constructor
  · intro i hi
    rw [mem_runNewLedgerEntries] at hi
    obtain ⟨t, ht, hok⟩ := hi
    have hti : i = t.1 := process_ok_index w t.2 t.1 i hok
    have htm : (t.1, t.2) ∈ taskSource df L := by simpa using ht
    have hnot := (mem_taskSource.mp htm).2
    rwa [hti]
  · intro x hx
    exact List.mem_append_left _ hx

theorem C2_witness : ((3 : Int)) ∈ mainLedgerAfter wOk [(0, some demoUrl)] [3] :=
  (C2_new_entries_disjoint wOk [(0, some demoUrl)] [3]).2 3 (by decide)

/-- C3 counterexample: a row whose URL cell holds the empty string (a
present, non-NA value) is NOT excluded from dispatch by the two pandas
filters of `main` — `notna` only excludes missing values — contradicting
the claim that an empty-string URL is excluded from the Task Source. -/
theorem C3_counterexample :
    (0, ([] : Str)) ∈ taskSource [(0, some ([] : Str))] [] := by decide

/-- C3 (amended): the Task Source yields exactly the records whose
identifier is not in the Ledger and whose URL cell is not missing (NA),
preserving the original relative order (it is a sublist of the input rows);
a record whose URL is the present empty string is not excluded.  (Pandas
`read_csv` does parse an empty CSV field as NA, so an empty field in the
input file is still excluded — but by the reader, not by this filter.) -/
theorem C3_task_source_filter (df : List (Nat × Option Str)) (L : List Int) :
    (∀ i u, ((i, u) ∈ taskSource df L ↔ ((i, some u) ∈ df ∧ (i : Int) ∉ L)))
    ∧ (taskSource df L).Sublist (df.map (fun r => (r.1, r.2.getD []))) :=
  ⟨fun _ _ => mem_taskSource, taskSource_sublist df L⟩

theorem C3_witness :
    (1, demoUrl) ∈ taskSource [(0, none), (1, some demoUrl)] [] ↔
      ((1, some demoUrl) ∈ [(0, none), (1, some demoUrl)] ∧ ((1 : Int)) ∉ ([] : List Int)) :=
  (C3_task_source_filter [(0, none), (1, some demoUrl)] []).1 1 demoUrl

/-- C4 counterexample: with a response whose Content-Type header declares
`text/html` while the payload sniffs as PNG, the store put is performed
with content type `text/html`, not the sniffed `image/png`: the code
prefers the server-declared header and uses the sniffed type only as the
fallback, contradicting the claim. -/
theorem C4_counterexample :
    wHdr.sniff [7] = some "PNG".toList
    ∧ (process_image_download_upload wHdr demoUrl 0).2
        = [Effect.fetchE demoUrl 30,
           Effect.putE DEST_S3_BUCKET (derive_key 0 demoUrl "png".toList) [7]
             "text/html".toList]
    ∧ ("text/html".toList : Str) ≠ "image/png".toList :=
  ⟨rfl, rfl, by decide⟩

/-- C4 (amended): for every successful upload, the content-type metadata
written to the destination store is the server-declared Content-Type
response header when present, and `image/{extension}` derived from the
sniffed format is used only when that header is absent
(`response.headers.get` with a default, source line 90). -/
theorem C4_content_type_from_header (w : World) (url : Str) (i : Nat)
    (resp : HttpResponse) (fmt : Str)
    (hf : w.fetch url 30 = .success resp)
    (hs : raise_for_status_fails resp.status = false)
    (hsn : w.sniff resp.content = some fmt) :
    ∀ b k body ct,
      Effect.putE b k body ct ∈ (process_image_download_upload w url i).2 →
        ct = resp.contentTypeHeader.getD
          ("image/".toList ++ extension_map (pyLower fmt)) := by
  intro b k body ct hmem
  rw [process_sniffed hf hs hsn] at hmem
  split at hmem <;> simp at hmem <;> exact hmem.2.2.2

theorem C4_witness :
    ("text/html".toList : Str) =
      (some "text/html".toList).getD
        ("image/".toList ++ extension_map (pyLower "PNG".toList)) :=
  C4_content_type_from_header wHdr demoUrl 0 ⟨200, some "text/html".toList, [7]⟩
    "PNG".toList rfl rfl rfl DEST_S3_BUCKET
    (derive_key 0 demoUrl ("png".toList)) [7] "text/html".toList (by decide)

/-- C5: the derived destination key equals
`"{folder}/{identifier}_{basename}.{extension}"` where `basename` is the
base filename of the URL path component with its extension stripped
(the spec-modelled `derive_key_specModel`), and the placeholder `image` is
substituted when that basename is empty, e.g. when the URL path ends in
a slash. -/
theorem C5_key_shape (i : Nat) (url ext : Str) :
    derive_key i url ext = derive_key_specModel i url ext
    ∧ ((∃ p, urlparsePath url = p ++ ['/']) →
        derive_key i url ext
          = DEST_S3_FOLDER ++ "/".toList ++ natToStr i ++ "_".toList
              ++ "image".toList ++ ".".toList ++ ext) := by
  constructor
  · rfl
  · intro h
    unfold derive_key
    rw [derive_base_trailing_slash h]

theorem C5_witness :
    derive_key 0 "http://h/".toList "png".toList
      = DEST_S3_FOLDER ++ "/".toList ++ natToStr 0 ++ "_".toList
          ++ "image".toList ++ ".".toList ++ "png".toList :=
  (C5_key_shape 0 "http://h/".toList "png".toList).2 ⟨[], by decide⟩

/-- C6: key derivation is a pure function of (identifier, URL, extension) —
the same inputs give the same key — and two distinct identifiers with the
same URL and extension give distinct keys (the decimal identifier is the
segment before the first underscore after the folder, and decimal
rendering is injective). -/
theorem C6_key_determinism (i j : Nat) (url ext : Str) :
    derive_key i url ext = derive_key i url ext
    ∧ (i ≠ j → derive_key i url ext ≠ derive_key j url ext) :=
  ⟨rfl, fun hij h => derive_key_index_inj i j url ext hij h⟩

theorem C6_witness :
    derive_key 0 demoUrl "png".toList ≠ derive_key 1 demoUrl "png".toList :=
  (C6_key_determinism 0 1 demoUrl "png".toList).2 (by decide)

/-- C7: when the fetched payload cannot be decoded as a recognised image
format (the sniffer yields nothing), the task fails with the
invalid-content error (`ValueError`) and no put to the destination store is
ever performed: classification failure short-circuits before the upload. -/
theorem C7_invalid_content_gate (w : World) (url : Str) (i : Nat)
    (resp : HttpResponse)
    (hf : w.fetch url 30 = .success resp)
    (hs : raise_for_status_fails resp.status = false)
    (hsn : w.sniff resp.content = none) :
    (process_image_download_upload w url i).1 = .error .invalidContent
    ∧ ∀ b k body ct,
        Effect.putE b k body ct ∉ (process_image_download_upload w url i).2 := by
  rw [process_bad_image hf hs hsn]
  refine ⟨rfl, ?_⟩
  intro b k body ct
  simp

theorem C7_witness :
    (process_image_download_upload wBadImage demoUrl 3).1
      = .error .invalidContent :=
  (C7_invalid_content_gate wBadImage demoUrl 3 ⟨200, none, [0]⟩ rfl (by decide) rfl).1

def isFetchEffect : Effect → Bool
  | .fetchE _ _ => true
  | .putE _ _ _ _ => false

/-- C8: every task performs exactly one network retrieval, with the bounded
timeout of 30 seconds hard-wired at the call site (no in-run retry), and a
raised transport exception (timeout, connection failure) or a 4xx/5xx
status turned into `HTTPError` by `raise_for_status` makes the task fail
with the network-error outcome. -/
theorem C8_single_fetch_network_errors (w : World) (url : Str) (i : Nat) :
    ((process_image_download_upload w url i).2.filter isFetchEffect
        = [Effect.fetchE url 30])
    ∧ (w.fetch url 30 = .requestExc →
        (process_image_download_upload w url i).1 = .error .networkError)
    ∧ (∀ resp, w.fetch url 30 = .success resp → 400 ≤ resp.status →
        resp.status < 600 →
        (process_image_download_upload w url i).1 = .error .networkError) := by
  refine ⟨?_, ?_, ?_⟩
  · cases hf : w.fetch url 30 with
    | requestExc =>
      rw [process_fetch_exc hf]
      rfl
    | success resp =>
      cases hs : raise_for_status_fails resp.status with
      | true =>
        rw [process_http_error hf hs]
        rfl
      | false =>
        cases hsn : w.sniff resp.content with
        | none =>
          rw [process_bad_image hf hs hsn]
          rfl
        | some fmt =>
          rw [process_sniffed hf hs hsn]
          split <;> rfl
  · intro hexc
    rw [process_fetch_exc hexc]
  · intro resp hf h1 h2
    have hs : raise_for_status_fails resp.status = true := by
      unfold raise_for_status_fails
      simp [h1, h2]
    rw [process_http_error hf hs]

theorem C8_witness :
    (process_image_download_upload w404 demoUrl 0).1 = .error .networkError :=
  (C8_single_fetch_network_errors w404 demoUrl 0).2.2 ⟨404, none, []⟩ rfl
    (by decide) (by decide)

/-- C9: key derivation uses only the path component of the URL — two URLs
that differ only in their query string or fragment derive the same
destination key. -/
theorem C9_query_fragment_ignored (i : Nat) (ext base s1 s2 : Str)
    (h1 : qfSuffix s1) (h2 : qfSuffix s2) :
    derive_key i (base ++ s1) ext = derive_key i (base ++ s2) ext := by
  rw [derive_key_append_qf i ext base h1, derive_key_append_qf i ext base h2]

theorem C9_witness :
    derive_key 0 ("http://h/a.png".toList ++ "?v=1".toList) "png".toList
      = derive_key 0 ("http://h/a.png".toList ++ "#frag".toList) "png".toList :=
  C9_query_fragment_ignored 0 "png".toList "http://h/a.png".toList
    "?v=1".toList "#frag".toList
    (Or.inr (Or.inl ⟨"v=1".toList, by decide⟩))
    (Or.inr (Or.inr ⟨"frag".toList, by decide⟩))

/-- C10: loading the Ledger returns the empty set when the progress file
does not exist, ignores blank and whitespace-only lines, collapses
duplicate lines into set membership, and raises an unguarded `ValueError`
(aborting startup) on any non-blank line that is not a decimal integer. -/
theorem C10_load_ledger :
    (load_processed_indices none = .ok ∅)
    ∧ (∀ lines l, pyStrip l = [] →
        load_processed_indices (some (l :: lines))
          = load_processed_indices (some lines))
    ∧ (∀ lines l,
        load_processed_indices (some (l :: l :: lines))
          = load_processed_indices (some (l :: lines)))
    ∧ (∀ lines l, l ∈ lines → pyStrip l ≠ [] → pyInt? (pyStrip l) = none →
        load_processed_indices (some lines) = .error ()) := by
  refine ⟨rfl, ?_, ?_, ?_⟩
  · intro lines l hb
    have hbe : (pyStrip l).isEmpty = true := by rw [hb]; rfl
    unfold load_processed_indices
    simp [List.filter_cons, hbe]
  · intro lines l
    by_cases hb : (pyStrip l).isEmpty
    · unfold load_processed_indices
      simp [List.filter_cons, hb]
    · have hb' : (!(pyStrip l).isEmpty) = true := by simp [hb]
      unfold load_processed_indices
      simp only [List.filter_cons, hb', if_true]
      by_cases hq : (pyInt? (pyStrip l)).isSome
      · obtain ⟨v, hv⟩ := Option.isSome_iff_exists.mp hq
        simp [List.all_cons, hq, List.filterMap_cons, hv, List.toFinset_cons,
          Finset.insert_idem]
      · have hq' : (pyInt? (pyStrip l)).isSome = false := by
          simpa using hq
        simp [List.all_cons, hq']
  · intro lines l hl hb hnone
    have hmem : l ∈ lines.filter (fun s => !(pyStrip s).isEmpty) := by
      rw [List.mem_filter]
      refine ⟨hl, ?_⟩
      simp [List.isEmpty_iff, hb]
    have hall :
        ¬ ((lines.filter (fun s => !(pyStrip s).isEmpty)).all
            (fun s => (pyInt? (pyStrip s)).isSome) = true) := by
      intro hcon
      have := List.all_eq_true.mp hcon l hmem
      rw [hnone] at this
      simp at this
    unfold load_processed_indices
    simp only [if_neg hall]

theorem C10_witness :
    load_processed_indices (some [['x']]) = .error () :=
  C10_load_ledger.2.2.2 [['x']] ['x'] (by decide) (by decide) (by decide)
